import Mathlib

/-
Verification development for the PDF outline extractor
(src/extract_outline.py).  The Python program is shallowly embedded:
font sizes and coordinates are modelled as exact rationals, Python
strings as Lean strings with ASCII semantics for the case/digit
classification methods, and the PDF-rendering collaborator's output
(pages, blocks, lines, spans, metadata, table of contents) as plain
inductive data.  Fallible code paths are modelled with Except.
-/

namespace POE

/-! ## Python string primitives (ASCII semantics) -/

/-- Model of Python str.split() with no argument: split on runs of
whitespace, discarding empty segments.  Accumulator holds the current
word reversed. -/
def wordsGo (acc : List Char) : List Char → List (List Char)
  | [] => if acc.isEmpty then [] else [acc.reverse]
  | c :: rest =>
      if c.isWhitespace then
        if acc.isEmpty then wordsGo [] rest else acc.reverse :: wordsGo [] rest
      else wordsGo (c :: acc) rest

/-- Words of a Python string, as by str.split(). -/
def pyWords (s : String) : List (List Char) := wordsGo [] s.toList

/-- Number of words, len(s.split()). -/
def wordCount (s : String) : ℕ := (pyWords s).length

/-- Model of Python str.isdigit() (ASCII digits): nonempty and all digits. -/
def pyIsdigit (s : String) : Bool :=
  !s.toList.isEmpty && s.toList.all Char.isDigit

/-- Model of Python str.isupper(): at least one cased character and no
lowercase cased character (ASCII: cased = letter). -/
def pyIsupper (s : String) : Bool :=
  s.toList.any Char.isAlpha && s.toList.all (fun c => !c.isAlpha || c.isUpper)

/-- Scanner for Python str.istitle(): tracks whether the previous
character was cased; an uppercase letter may only follow an uncased
character, a lowercase letter may only follow a cased one. -/
def istitleGo (prevCased : Bool) : List Char → Bool
  | [] => true
  | c :: rest =>
      if c.isUpper then !prevCased && istitleGo true rest
      else if c.isLower then prevCased && istitleGo true rest
      else istitleGo false rest

/-- Model of Python str.istitle() (ASCII): at least one cased character
and title-style transitions throughout. -/
def pyIstitle (s : String) : Bool :=
  s.toList.any Char.isAlpha && istitleGo false s.toList

/-- Model of s.rstrip().endswith('.'): the last non-whitespace character
is a period. -/
def endsWithPeriod (s : String) : Bool :=
  decide ((s.toList.reverse.dropWhile Char.isWhitespace).head? = some '.')

/-- Model of Python str.strip(): drop leading and trailing whitespace. -/
def pyStrip (s : String) : String :=
  String.mk (((s.toList.dropWhile Char.isWhitespace).reverse.dropWhile
      Char.isWhitespace).reverse)

/-- Lower-cased character list of a string (ASCII model of str.lower()). -/
def pyLower (s : String) : List Char := s.toList.map Char.toLower

/-- Contiguous-sublist test on character lists. -/
def isInfixL (needle : List Char) : List Char → Bool
  | [] => needle.isEmpty
  | c :: rest => needle.isPrefixOf (c :: rest) || isInfixL needle rest

/-- Model of Python `needle in hay` on lowered strings: case-insensitive
contiguous substring test. -/
def substrCI (needle hay : String) : Bool :=
  isInfixL (pyLower needle) (pyLower hay)

/-- Model of os.path.basename for forward-slash paths: the segment after
the last separator. -/
def pyBasename (path : String) : String :=
  String.mk ((path.toList.splitOn '/').getLastD path.toList)

/-! ## Python round (banker's rounding) on exact rationals -/

/-- Model of Python round(x) on an exact rational: round half to even. -/
def pyRound (q : ℚ) : ℤ :=
  let f : ℤ := ⌊q⌋
  let r : ℚ := q - f
  if r < 1/2 then f
  else if 1/2 < r then f + 1
  else if f % 2 = 0 then f else f + 1

/-- Model of round(x, 1): round to one decimal digit. -/
def round1 (q : ℚ) : ℚ := (pyRound (q * 10) : ℚ) / 10

/-- Model of round(x * 2) / 2: round to the nearest half. -/
def roundHalf (q : ℚ) : ℚ := (pyRound (q * 2) : ℚ) / 2

/-! ## Data model of the rendering collaborator's output -/

/-- A span: contiguous run of text with uniform font.  The Python code
tests the bold bit of the span's flags; we carry it as a Bool. -/
structure Span where
  size : ℚ
  bold : Bool
  text : String
  deriving DecidableEq, Repr

/-- A line: spans plus the top edge of its bounding box. -/
structure Line where
  bboxTop : ℚ
  spans : List Span
  deriving DecidableEq, Repr

/-- A text block: its type tag (0 for text), the top edge of its
bounding box, and its lines. -/
structure Block where
  btype : ℤ
  bboxTop : ℚ
  lines : List Line
  deriving DecidableEq, Repr

/-- A page.  `blocks` is the full sorted dict output used by the title
resolver and scanner; `clippedBlocks` is the collaborator's output for
the central content rectangle used by the body-style estimator (the
clipping itself is performed by the external rendering library). -/
structure Page where
  height : ℚ
  blocks : List Block
  clippedBlocks : List Block
  deriving DecidableEq, Repr

/-- A table-of-contents entry: (level, text, page). -/
abbrev TocEntry := ℤ × String × ℤ

/-- A successfully opened document.  `metadataTitle` models
doc.metadata.get('title', '') (absent title = empty string). -/
structure Doc where
  metadataTitle : String
  toc : List TocEntry
  pages : List Page
  deriving DecidableEq, Repr

/-- Input to extract_outline: either the document opened successfully or
fitz.open raised (the explicit open-failure path). -/
inductive PdfInput where
  | failure (msg : String)
  | doc (d : Doc)
  deriving DecidableEq, Repr

/-- The std_dev field of the body statistics.  The Python value is a
float: 1.0 in the degenerate all-identical branch, 1.5 in the no-sample
fallback, and the sample standard deviation (a square root) otherwise.
Since the square root is irrational we carry it symbolically as the
exact sample variance it is the root of; `StdDev.val` interprets the
three cases as real numbers.  No downstream code reads std_dev. -/
inductive StdDev where
  | one
  | fallback
  | sqrtOf (variance : ℚ)
  deriving DecidableEq, Repr

/-- Real value denoted by a StdDev tag. -/
noncomputable def StdDev.val : StdDev → ℝ
  | .one => 1
  | .fallback => 3/2
  | .sqrtOf v => Real.sqrt (v : ℝ)

/-- Estimated body-text baseline. -/
structure BodyStats where
  median_size : ℚ
  std_dev : StdDev
  deriving DecidableEq, Repr

/-- A heading candidate recorded by the scanner. -/
structure Candidate where
  text : String
  size : ℚ
  page : ℤ
  yPos : ℚ
  isBold : Bool
  deriving DecidableEq, Repr

/-- A leveled outline entry still carrying its vertical position (the
dict appended before the final sort in the Python code). -/
structure EntryY where
  level : String
  text : String
  page : ℤ
  yPos : ℚ
  deriving DecidableEq, Repr

/-- A final outline entry. -/
structure Entry where
  level : String
  text : String
  page : ℤ
  deriving DecidableEq, Repr

/-- Result record of extract_outline: either the error record returned
on open failure or the title/outline record. -/
inductive ExtractionResult where
  | error (msg : String)
  | result (title : String) (outline : List Entry)
  deriving DecidableEq, Repr

deriving instance DecidableEq for Except

/-! ## The numbered/labelled heading pattern

Model of
re.match(r"^((\d\x7b1,2\x7d(\.\d\x7b1,2\x7d)*\.?)|([A-Z]\.)|(Appendix|Chapter|Section)\s+[\w\d])\s+", text)
as a boolean matcher.  The regex is anchored at the start; the three
alternatives are disjoint tests; backtracking inside the first
alternative reduces to requiring every maximal digit run to have length
one or two (a longer run can never be completed, since after the dotted
groups only a dot or whitespace may follow). -/

/-- Whether a character list starts with at least one whitespace
character (the trailing  backslash-s-plus  of the pattern). -/
def startsWithWs : List Char → Bool
  | [] => false
  | c :: _ => c.isWhitespace

/-- ASCII word character, modelling  backslash-w  of the pattern. -/
def isWordChar (c : Char) : Bool := c.isAlphanum || c = '_'

/-- Tail of the first alternative after the leading digit run: zero or
more groups of a dot followed by one or two digits, then an optional
dot, then mandatory whitespace.  Fuel-driven structural recursion: each
step consumes at least the leading dot, so any fuel above the list
length is adequate. -/
def numTailF : ℕ → List Char → Bool
  | 0, _ => false
  | _ + 1, [] => false
  | fuel + 1, '.' :: rest =>
      let d := rest.takeWhile Char.isDigit
      if d.length = 0 then startsWithWs rest
      else if d.length ≤ 2 then numTailF fuel (rest.dropWhile Char.isDigit)
      else false
  | _ + 1, c :: _ => c.isWhitespace

/-- Tail matcher with adequate fuel. -/
def numTail (cs : List Char) : Bool := numTailF (cs.length + 1) cs

/-- First alternative: a one-or-two digit outline number with dotted
continuations and an optional trailing dot, then whitespace. -/
def matchNum (cs : List Char) : Bool :=
  let d := cs.takeWhile Char.isDigit
  (decide (1 ≤ d.length) && decide (d.length ≤ 2))
    && numTail (cs.dropWhile Char.isDigit)

/-- Second alternative: a single capital letter, a dot, then whitespace. -/
def matchCapDot : List Char → Bool
  | a :: '.' :: rest => a.isUpper && startsWithWs rest
  | _ => false

/-- After one of the keywords: mandatory whitespace, one word character,
then mandatory whitespace. -/
def afterKeyword (rest : List Char) : Bool :=
  (decide (0 < (rest.takeWhile Char.isWhitespace).length))
    && (match rest.dropWhile Char.isWhitespace with
        | c :: r => isWordChar c && startsWithWs r
        | [] => false)

/-- Third alternative for one keyword. -/
def matchOneKeyword (w : String) (cs : List Char) : Bool :=
  w.toList.isPrefixOf cs && afterKeyword (cs.drop w.toList.length)

/-- Third alternative: Appendix, Chapter or Section followed by an
identifier character and whitespace. -/
def matchKeyword (cs : List Char) : Bool :=
  matchOneKeyword "Appendix" cs || matchOneKeyword "Chapter" cs
    || matchOneKeyword "Section" cs

/-- The whole numbered/labelled heading pattern. -/
def headingPattern (s : String) : Bool :=
  matchNum s.toList || matchCapDot s.toList || matchKeyword s.toList

/-! ## Text-Characteristic Analyzer (get_text_characteristics) -/

/-- Record returned by get_text_characteristics. -/
structure TextChars where
  is_all_caps : Bool
  is_title_case : Bool
  ends_with_period : Bool
  word_count : ℕ
  char_count : ℕ
  deriving DecidableEq, Repr

/-- Model of get_text_characteristics. -/
def getTextCharacteristics (text : String) : TextChars :=
  if text = "" then
    ⟨false, false, false, 0, 0⟩
  else
    { is_all_caps := pyIsupper text && decide (0 < wordCount text)
      is_title_case := pyIstitle text && !pyIsupper text
      ends_with_period := endsWithPeriod text
      word_count := wordCount text
      char_count := text.length }

/-! ## Heading Classifier (is_line_a_heading) -/

/-- The additive raw score of the classifier, before clamping and
normalization, as a function of the precomputed signals.  All weights
are from the source. -/
def rawScoreOf (tc : TextChars) (isBold isLarge veryLarge isStandalone pat : Bool) : ℚ :=
  (if isBold then 6 else 0)
    + (if isLarge then 4 else 0)
    + (if veryLarge then 2 else 0)
    + (if tc.is_all_caps && decide (tc.word_count < 10) then 3 else 0)
    + (if tc.is_title_case then 2 else 0)
    + (if isStandalone then 2 else 0)
    + (if pat then 5 else 0)
    - (if tc.ends_with_period then 3 else 0)
    - (if tc.word_count = 1 && !isLarge && !tc.is_all_caps then 2 else 0)
    - (if 15 < tc.word_count then 2 else 0)

/-- The raw score of a line: signals are large (size above median+0.5),
very large (size above median+2.5), and the numbered-heading pattern. -/
def headingRawScore (text : String) (lineSize : ℚ) (isBold isStandalone : Bool)
    (stats : BodyStats) : ℚ :=
  rawScoreOf (getTextCharacteristics text) isBold
    (decide (stats.median_size + 1/2 < lineSize))
    (decide (stats.median_size + 5/2 < lineSize))
    isStandalone (headingPattern text)

/-- Executable model of Python max(a, b) on rationals (ties return the
first argument, which is numerically irrelevant). -/
def pyMax2 (a b : ℚ) : ℚ := if a < b then b else a

/-- pyMax2 agrees with the lattice max. -/
theorem pyMax2_eq_max (a b : ℚ) : pyMax2 a b = max a b := by
  unfold pyMax2
  split_ifs with h
  · exact (max_eq_right (le_of_lt h)).symm
  · exact (max_eq_left (not_lt.mp h)).symm

/-- Model of is_line_a_heading: quick rejection filters, the
strong-signal requirement, then the normalized score (clamped at zero,
divided by 20) against the 0.35 threshold (0.35 = 7/20 exactly). -/
def isLineAHeading (text : String) (lineSize : ℚ) (isBold isStandalone : Bool)
    (stats : BodyStats) : Bool × ℚ :=
  if text = "" || pyIsdigit text then (false, 0)
  else if 25 < (getTextCharacteristics text).word_count then (false, 0)
  else if (getTextCharacteristics text).ends_with_period
      && decide (5 < (getTextCharacteristics text).word_count) then (false, 0)
  else if !isBold && !(decide (stats.median_size + 1/2 < lineSize))
      && !(getTextCharacteristics text).is_all_caps then (false, 0)
  else
    (decide (7/20 ≤ pyMax2 0 (headingRawScore text lineSize isBold isStandalone stats / 20)),
      pyMax2 0 (headingRawScore text lineSize isBold isStandalone stats / 20))

/-- The disjunction of all immediate-rejection conditions of the
classifier (used to state the accept/score equivalence). -/
def quickReject (text : String) (lineSize : ℚ) (isBold : Bool)
    (stats : BodyStats) : Bool :=
  let tc := getTextCharacteristics text
  text = "" || pyIsdigit text || decide (25 < tc.word_count)
    || (tc.ends_with_period && decide (5 < tc.word_count))
    || (!isBold && !(decide (stats.median_size + 1/2 < lineSize))
        && !tc.is_all_caps)

/-! ## Generic stable insertion sort (model of Python's stable sorted) -/

/-- Stable insertion of x into a sorted list: x goes before the first
element it compares le to, so elements equal under le keep their
original relative order. -/
def insertBy {α : Type} (le : α → α → Bool) (x : α) : List α → List α
  | [] => [x]
  | y :: ys => if le x y then x :: y :: ys else y :: insertBy le x ys

/-- Stable insertion sort by a boolean comparison. -/
def isortBy {α : Type} (le : α → α → Bool) : List α → List α
  | [] => []
  | x :: xs => insertBy le x (isortBy le xs)

/-! ## Body-Style Estimator (analyze_document_style) -/

/-- Arithmetic mean (statistics.mean) on exact rationals. -/
def qMean (xs : List ℚ) : ℚ := xs.sum / xs.length

/-- Rational comparison as a boolean, for sorting. -/
def qLe (a b : ℚ) : Bool := decide (a ≤ b)

/-- Model of statistics.median: sort, take the middle element, or the
mean of the two middle elements when the length is even.  (The Python
function raises on an empty list; the caller guards that case, and the
default 0 here is never reached on guarded inputs.) -/
def pyMedian (xs : List ℚ) : ℚ :=
  let s := isortBy qLe xs
  let n := s.length
  if n % 2 = 1 then s.getD (n / 2) 0
  else (s.getD (n / 2 - 1) 0 + s.getD (n / 2) 0) / 2

/-- Sample variance, the quantity whose square root statistics.stdev
returns; carried symbolically inside StdDev.sqrtOf. -/
def sampleVariance (xs : List ℚ) : ℚ :=
  (xs.map (fun x => (x - qMean xs) ^ 2)).sum / ((xs.length : ℚ) - 1)

/-- Sizes contributed by one line of a qualifying paragraph block:
each span's size rounded to one decimal, kept when in the plausible
body range 7..24. -/
def lineSizesIn (l : Line) : List ℚ :=
  l.spans.filterMap (fun s =>
    let z := round1 s.size
    if 7 ≤ z ∧ z ≤ 24 then some z else none)

/-- Sizes contributed by one clipped block.  The source tests
len(lines) greater than 2 and then indexes lines[0].spans[0] with no
guard, so a long block whose first line has no spans raises IndexError;
that is modelled by the error case. -/
def blockSizes (b : Block) : Except String (List ℚ) :=
  if b.btype = 0 then
    if 2 < b.lines.length then
      match b.lines with
      | [] => .ok []
      | l0 :: _ =>
          match l0.spans with
          | [] => .error "IndexError: list index out of range"
          | s0 :: _ =>
              if 3 < wordCount s0.text then .ok (b.lines.flatMap lineSizesIn)
              else .ok []
    else .ok []
  else .ok []

/-- Sizes of a list of blocks, first failure propagated. -/
def blocksSizes : List Block → Except String (List ℚ)
  | [] => .ok []
  | b :: bs => do
      let xs ← blockSizes b
      let ys ← blocksSizes bs
      .ok (xs ++ ys)

/-- Sizes of a list of pages (their clipped central-rectangle views). -/
def pagesSizes : List Page → Except String (List ℚ)
  | [] => .ok []
  | p :: ps => do
      let xs ← blocksSizes p.clippedBlocks
      let ys ← pagesSizes ps
      .ok (xs ++ ys)

/-- Font sizes sampled by analyze_document_style: at most the first 5
pages. -/
def collectSizes (d : Doc) : Except String (List ℚ) :=
  pagesSizes (d.pages.take 5)

/-- Model of analyze_document_style. -/
def analyzeDocumentStyle (d : Doc) : Except String BodyStats := do
  let sizes ← collectSizes d
  if sizes = [] then .ok ⟨11, .fallback⟩
  else
    .ok ⟨pyMedian sizes,
      if 1 < sizes.dedup.length then .sqrtOf (sampleVariance sizes)
      else .one⟩

/-! ## Title Resolver (extract_outline, first-page scan) -/

/-- Title candidates: for each text block of the first page whose top
edge is in the upper half, the stripped text of the first span of every
line, kept when longer than 3 characters and under 15 words, paired
with the prominence score size + 2-if-bold. -/
def titleCandidates (p : Page) : List (ℚ × String) :=
  p.blocks.flatMap (fun b =>
    if b.btype = 0 ∧ b.bboxTop < p.height / 2 then
      b.lines.filterMap (fun ln =>
        match ln.spans with
        | [] => none
        | s0 :: _ =>
            let t := pyStrip s0.text
            if 3 < t.length ∧ wordCount t < 15 then
              some (s0.size + (if s0.bold then 2 else 0), t)
            else none)
    else [])

/-- Model of Python max(xs, key=first): the first element with the
strictly greatest first component. -/
def pyMaxByFst : List (ℚ × String) → Option (ℚ × String)
  | [] => none
  | x :: xs => some (xs.foldl (fun best y => if best.1 < y.1 then y else best) x)

/-- Model of the title resolution in extract_outline: the stripped
metadata title when nonempty and at least 5 characters, otherwise the
best-scoring first-page candidate, otherwise the file's base name. -/
def resolveTitle (path : String) (metaTitle : String) (firstPage : Page) : String :=
  let t := pyStrip metaTitle
  if t = "" ∨ t.length < 5 then
    match pyMaxByFst (titleCandidates firstPage) with
    | some pr => pr.2
    | none => pyBasename path
  else t

/-! ## TOC Extractor -/

/-- Outline built from the embedded table of contents: entries with
level 1..3, mapped to level "H" ++ level with stripped text and the
TOC's page unchanged. -/
def tocOutline (toc : List TocEntry) : List Entry :=
  toc.filterMap (fun e =>
    if 1 ≤ e.1 ∧ e.1 ≤ 3 then
      some ⟨"H" ++ toString e.1, pyStrip e.2.1, e.2.2⟩
    else none)

/-! ## Heading Candidate Scanner -/

/-- Reconstructed text of a line: span texts joined by single spaces and
stripped. -/
def lineText (ln : Line) : String :=
  pyStrip (String.intercalate " " (ln.spans.map Span.text))

/-- Majority-bold test: characters of bold spans (raw span lengths)
against the length of the reconstructed stripped text; False for an
empty reconstructed text. -/
def lineIsBold (ln : Line) (t : String) : Bool :=
  let bcc : ℕ := ((ln.spans.filter Span.bold).map (fun s => s.text.length)).sum
  if t = "" then false
  else decide ((1 : ℚ)/2 < (bcc : ℚ) / (t.length : ℚ))

/-- One line of the scanner: skip spanless lines, consolidate average
size and majority boldness, classify, and record a candidate with the
1-based page number. -/
def processLine (stats : BodyStats) (pageNo : ℕ) (standalone : Bool)
    (ln : Line) : Option Candidate :=
  let t := lineText ln
  if ln.spans = [] then none
  else
    let avg := round1 (qMean (ln.spans.map Span.size))
    let bold := lineIsBold ln t
    if (isLineAHeading t avg bold standalone stats).1 then
      some ⟨t, avg, (pageNo : ℤ), ln.bboxTop, bold⟩
    else none

/-- Scanner over one page: text blocks only, a block is standalone when
it has at most 2 lines. -/
def scanPage (stats : BodyStats) (pageNo : ℕ) (p : Page) : List Candidate :=
  p.blocks.flatMap (fun b =>
    if b.btype = 0 then
      b.lines.filterMap (processLine stats pageNo (decide (b.lines.length ≤ 2)))
    else [])

/-- Scanner over the remaining pages, i pages already consumed. -/
def scanPagesFrom (stats : BodyStats) : ℕ → List Page → List Candidate
  | _, [] => []
  | i, p :: ps => scanPage stats (i + 1) p ++ scanPagesFrom stats (i + 1) ps

/-- Scanner over the whole document. -/
def scanDoc (stats : BodyStats) (d : Doc) : List Candidate :=
  scanPagesFrom stats 0 d.pages

/-! ## Visual-Signature Leveler -/

/-- A candidate's visual signature: boldness and size rounded to the
nearest half. -/
def getVisualSignature (c : Candidate) : Bool × ℚ :=
  (c.isBold, roundHalf c.size)

/-- Comparison realizing Python's sort key (-bold, -bucket): bold
signatures first, then larger buckets first. -/
def sigLE (a b : Bool × ℚ) : Bool :=
  if a.1 = b.1 then decide (b.2 ≤ a.2) else a.1

/-- The distinct signatures in descending prominence order. -/
def sortedSigs (cands : List Candidate) : List (Bool × ℚ) :=
  isortBy sigLE ((cands.map getVisualSignature).dedup)

/-- The level map built from the top three distinct signatures
(enumerate of the first three, i mapped to "H" ++ (i+1)). -/
def levelAssoc (ss : List (Bool × ℚ)) : List ((Bool × ℚ) × String) :=
  match ss with
  | [] => []
  | [a] => [(a, "H1")]
  | [a, b] => [(a, "H1"), (b, "H2")]
  | a :: b :: c :: _ => [(a, "H1"), (b, "H2"), (c, "H3")]

/-- Dictionary lookup in the level map. -/
def sigLookup (m : List ((Bool × ℚ) × String)) (s : Bool × ℚ) : Option String :=
  match m with
  | [] => none
  | (k, v) :: rest => if s = k then some v else sigLookup rest s

/-- Leveled entries: each candidate whose signature is in the level map
becomes an entry with that level; others are dropped. -/
def leveledEntries (cands : List Candidate) : List EntryY :=
  let am := levelAssoc (sortedSigs cands)
  cands.filterMap (fun c =>
    (sigLookup am (getVisualSignature c)).map
      (fun lv => ⟨lv, c.text, c.page, c.yPos⟩))

/-! ## Outline Assembler -/

/-- Reading-order comparison: page ascending then vertical position
ascending (Python tuple key (page, y_pos)). -/
def entryLE (a b : EntryY) : Bool :=
  decide (a.page < b.page ∨ (a.page = b.page ∧ a.yPos ≤ b.yPos))

/-- The final sort of the leveled outline. -/
def sortEntries (l : List EntryY) : List EntryY := isortBy entryLE l

/-- The duplicate-removal loop: an item is skipped when its text and
page both equal the previous item's; the previous-item state is updated
on every iteration.  The y position is dropped from the emitted
entries. -/
def dedupGo (lastText : String) (lastPage : ℤ) : List EntryY → List Entry
  | [] => []
  | e :: rest =>
      (if e.text = lastText ∧ e.page = lastPage then []
       else [⟨e.level, e.text, e.page⟩]) ++ dedupGo e.text e.page rest

/-- Duplicate removal with the source's initial sentinel state
(last text the empty string, last page -1). -/
def dedupOutline (l : List EntryY) : List Entry := dedupGo "" (-1) l

/-- Title suppression: drop the first entry when its lower-cased text
occurs in the lower-cased title. -/
def suppressTitle (title : String) : List Entry → List Entry
  | [] => []
  | e :: rest => if substrCI e.text title then rest else e :: rest

/-! ## The whole extract_outline -/

/-- Model of extract_outline.  The try/except around fitz.open is the
PdfInput.failure case; a crash of the heuristic pipeline (IndexError in
analyze_document_style) is an Except.error, which in Python escapes the
function.  The TOC branch of the source returns early exactly when the
filtered TOC outline is nonempty (which entails a nonempty TOC). -/
def extractOutline (path : String) (input : PdfInput) : Except String ExtractionResult :=
  match input with
  | .failure msg => .ok (.error ("Failed to open PDF: " ++ msg))
  | .doc d =>
      match d.pages with
      | [] => .ok (.result "Untitled" [])
      | p :: _ =>
          let title := resolveTitle path d.metadataTitle p
          let tocO := tocOutline d.toc
          if tocO ≠ [] then .ok (.result title tocO)
          else do
            let stats ← analyzeDocumentStyle d
            let cands := scanDoc stats d
            if cands = [] then .ok (.result title [])
            else
              .ok (.result title
                (suppressTitle title
                  (dedupOutline (sortEntries (leveledEntries cands)))))

/-! ## Lemmas about the insertion sort -/

theorem insertBy_perm {α : Type} (le : α → α → Bool) (x : α) (l : List α) :
    List.Perm (insertBy le x l) (x :: l) := by
  induction l with
  | nil => simp [insertBy]
  | cons y ys ih =>
      simp only [insertBy]
      by_cases h : le x y = true
      · simp [h]
      · simp only [h, if_false]
        exact (ih.cons y).trans (List.Perm.swap x y ys)

theorem isortBy_perm {α : Type} (le : α → α → Bool) (l : List α) :
    List.Perm (isortBy le l) l := by
  induction l with
  | nil => simp [isortBy]
  | cons x xs ih =>
      exact (insertBy_perm le x (isortBy le xs)).trans (ih.cons x)

theorem mem_isortBy {α : Type} (le : α → α → Bool) (l : List α) (a : α) :
    a ∈ isortBy le l ↔ a ∈ l :=
  (isortBy_perm le l).mem_iff

theorem insertBy_pairwise {α : Type} (le : α → α → Bool)
    (htot : ∀ a b, le a b = true ∨ le b a = true)
    (htrans : ∀ a b c, le a b = true → le b c = true → le a c = true)
    (x : α) (l : List α)
    (hl : l.Pairwise (fun a b => le a b = true)) :
    (insertBy le x l).Pairwise (fun a b => le a b = true) := by
  induction l with
  | nil => simp [insertBy]
  | cons y ys ih =>
      rcases List.pairwise_cons.mp hl with ⟨hy, hys⟩
      simp only [insertBy]
      by_cases h : le x y = true
      · simp only [h, if_true]
        refine List.pairwise_cons.mpr ⟨?_, hl⟩
        intro z hz
        rcases List.mem_cons.mp hz with rfl | hz
        · exact h
        · exact htrans x y z h (hy z hz)
      · simp only [h, if_false]
        have hyx : le y x = true := (htot x y).resolve_left h
        refine List.pairwise_cons.mpr ⟨?_, ih hys⟩
        intro z hz
        have hz' : z ∈ x :: ys := (insertBy_perm le x ys).mem_iff.mp hz
        rcases List.mem_cons.mp hz' with rfl | hm
        · exact hyx
        · exact hy z hm

theorem isortBy_pairwise {α : Type} (le : α → α → Bool)
    (htot : ∀ a b, le a b = true ∨ le b a = true)
    (htrans : ∀ a b c, le a b = true → le b c = true → le a c = true)
    (l : List α) :
    (isortBy le l).Pairwise (fun a b => le a b = true) := by
  induction l with
  | nil => simp [isortBy]
  | cons x xs ih => exact insertBy_pairwise le htot htrans x _ ih

/-! ## Claim C2: immediate rejections of the classifier -/

/-- C2: the Heading Classifier returns a false decision with confidence
0 whenever the text is empty, purely numeric, longer than 25 words, or
ends with a period while having more than 5 words, and also whenever
the line is not bold, not larger than the body median plus 0.5, and not
all-caps, regardless of any other attribute of the line. -/
theorem classifier_quick_rejections (text : String) (lineSize : ℚ)
    (isBold isStandalone : Bool) (stats : BodyStats)
    (h : text = "" ∨ pyIsdigit text = true
      ∨ 25 < (getTextCharacteristics text).word_count
      ∨ ((getTextCharacteristics text).ends_with_period = true
          ∧ 5 < (getTextCharacteristics text).word_count)
      ∨ (isBold = false ∧ ¬(stats.median_size + 1/2 < lineSize)
          ∧ (getTextCharacteristics text).is_all_caps = false)) :
    isLineAHeading text lineSize isBold isStandalone stats = (false, 0) := by
  unfold isLineAHeading
  split_ifs with h1 h2 h3 h4
  · rfl
  · rfl
  · rfl
  · rfl
  · exfalso
    simp only [Bool.or_eq_true, decide_eq_true_eq] at h1
    push_neg at h1
    simp only [Bool.and_eq_true, decide_eq_true_eq] at h3
    simp only [Bool.and_eq_true, Bool.not_eq_true', decide_eq_false_iff_not] at h4
    tauto

/-- Witness for C2: a 26-word sentence ending in a period is rejected
even when bold, standalone and far larger than the body median. -/
theorem classifier_quick_rejections_witness :
    25 < (getTextCharacteristics
      "w w w w w w w w w w w w w w w w w w w w w w w w w w.").word_count
    ∧ isLineAHeading "w w w w w w w w w w w w w w w w w w w w w w w w w w."
        99 true true ⟨11, .fallback⟩ = (false, 0) :=
  ⟨by decide,
   classifier_quick_rejections _ 99 true true ⟨11, .fallback⟩
     (Or.inr (Or.inr (Or.inl (by decide))))⟩

/-! ## Claim C3: confidence range and acceptance threshold -/

/-- The analyzer never reports a line as both all-caps and title-case:
is_title_case explicitly excludes all-upper text. -/
theorem allCaps_excludes_titleCase (text : String)
    (h : (getTextCharacteristics text).is_all_caps = true) :
    (getTextCharacteristics text).is_title_case = false := by
  unfold getTextCharacteristics at h ⊢
  by_cases he : text = ""
  · simp [he] at h
  · simp only [he, if_false] at h ⊢
    simp only [Bool.and_eq_true] at h
    simp [h.1]

/-- The raw score is at most 22: all bonuses except that the all-caps
and title-case bonuses are mutually exclusive, and penalties only
subtract. -/
theorem rawScoreOf_le (tc : TextChars) (b l v s p : Bool)
    (hx : tc.is_all_caps = true → tc.is_title_case = false) :
    rawScoreOf tc b l v s p ≤ 22 := by
  unfold rawScoreOf
  have hde : (if tc.is_all_caps && decide (tc.word_count < 10) then (3 : ℚ) else 0)
      + (if tc.is_title_case then (2 : ℚ) else 0) ≤ 3 := by
    by_cases hw : (tc.is_all_caps && decide (tc.word_count < 10)) = true
    · have hcaps : tc.is_all_caps = true := by
        simp only [Bool.and_eq_true] at hw
        exact hw.1
      rw [if_pos hw, if_neg (show ¬(tc.is_title_case = true) by simp [hx hcaps])]
      norm_num
    · rw [if_neg hw]
      split_ifs <;> norm_num
  have h1 : (if b then (6 : ℚ) else 0) ≤ 6 := by split_ifs <;> norm_num
  have h2 : (if l then (4 : ℚ) else 0) ≤ 4 := by split_ifs <;> norm_num
  have h3 : (if v then (2 : ℚ) else 0) ≤ 2 := by split_ifs <;> norm_num
  have h6 : (if s then (2 : ℚ) else 0) ≤ 2 := by split_ifs <;> norm_num
  have h7 : (if p then (5 : ℚ) else 0) ≤ 5 := by split_ifs <;> norm_num
  have p1 : (0 : ℚ) ≤ (if tc.ends_with_period then 3 else 0) := by
    split_ifs <;> norm_num
  have p2 : (0 : ℚ) ≤ (if tc.word_count = 1 && !l && !tc.is_all_caps then 2 else 0) := by
    split_ifs <;> norm_num
  have p3 : (0 : ℚ) ≤ (if 15 < tc.word_count then 2 else 0) := by
    split_ifs <;> norm_num
  linarith

/-- Counterexample to C3 as stated: the bold, very large, all-caps,
standalone, numbered line "1. INTRODUCTION" scores 22 out of a
denominator of 20, so its confidence 11/10 exceeds 1. -/
theorem classifier_confidence_above_one :
    isLineAHeading "1. INTRODUCTION" 14 true true ⟨11, .fallback⟩ = (true, 11/10)
    ∧ ¬((11 : ℚ)/10 ≤ 1) := by
  constructor
  · norm_num [isLineAHeading, pyMax2, headingRawScore, rawScoreOf,
      (by decide : getTextCharacteristics "1. INTRODUCTION" = ⟨true, false, false, 2, 15⟩),
      (by decide : headingPattern "1. INTRODUCTION" = true),
      (by decide : pyIsdigit "1. INTRODUCTION" = false),
      (by decide : ¬("1. INTRODUCTION" = ""))]
  · norm_num

/-- C3 amended: the confidence lies in the interval from 0 to 11/10
(the raw weighted score, clamped at zero and divided by 20, can reach
22), and the classifier accepts exactly when the confidence is at least
0.35 = 7/20, equivalently when no quick rejection fires and the raw
score is at least 7. -/
theorem classifier_confidence_spec (text : String) (lineSize : ℚ)
    (isBold isStandalone : Bool) (stats : BodyStats) :
    0 ≤ (isLineAHeading text lineSize isBold isStandalone stats).2
    ∧ (isLineAHeading text lineSize isBold isStandalone stats).2 ≤ 11/10
    ∧ ((isLineAHeading text lineSize isBold isStandalone stats).1 = true
        ↔ 7/20 ≤ (isLineAHeading text lineSize isBold isStandalone stats).2)
    ∧ ((isLineAHeading text lineSize isBold isStandalone stats).1 = true
        ↔ (quickReject text lineSize isBold stats = false
          ∧ 7 ≤ headingRawScore text lineSize isBold isStandalone stats)) := by
  have hs22 : headingRawScore text lineSize isBold isStandalone stats ≤ 22 :=
    rawScoreOf_le _ _ _ _ _ _ (allCaps_excludes_titleCase text)
  unfold isLineAHeading
  split_ifs with h1 h2 h3 h4
  · have hq : quickReject text lineSize isBold stats = true := by
      simp only [quickReject, Bool.or_eq_true, Bool.and_eq_true, Bool.not_eq_true',
        decide_eq_true_eq, decide_eq_false_iff_not] at h1 ⊢
      tauto
    refine ⟨le_refl 0, by norm_num, by norm_num, ?_⟩
    simp [hq]
  · have hq : quickReject text lineSize isBold stats = true := by
      simp only [quickReject, Bool.or_eq_true, Bool.and_eq_true, Bool.not_eq_true',
        decide_eq_true_eq, decide_eq_false_iff_not]
      tauto
    refine ⟨le_refl 0, by norm_num, by norm_num, ?_⟩
    simp [hq]
  · have hq : quickReject text lineSize isBold stats = true := by
      simp only [Bool.and_eq_true, decide_eq_true_eq] at h3
      simp only [quickReject, Bool.or_eq_true, Bool.and_eq_true, Bool.not_eq_true',
        decide_eq_true_eq, decide_eq_false_iff_not]
      tauto
    refine ⟨le_refl 0, by norm_num, by norm_num, ?_⟩
    simp [hq]
  · have hq : quickReject text lineSize isBold stats = true := by
      simp only [Bool.and_eq_true, Bool.not_eq_true', decide_eq_false_iff_not] at h4
      simp only [quickReject, Bool.or_eq_true, Bool.and_eq_true, Bool.not_eq_true',
        decide_eq_true_eq, decide_eq_false_iff_not]
      tauto
    refine ⟨le_refl 0, by norm_num, by norm_num, ?_⟩
    simp [hq]
  · have hq : quickReject text lineSize isBold stats = false := by
      rcases hqr : quickReject text lineSize isBold stats
      · rfl
      · exfalso
        simp only [Bool.or_eq_true, decide_eq_true_eq] at h1
        push_neg at h1
        simp only [Bool.and_eq_true, decide_eq_true_eq] at h3
        simp only [Bool.and_eq_true, Bool.not_eq_true', decide_eq_false_iff_not] at h4
        simp only [quickReject, Bool.or_eq_true, Bool.and_eq_true, Bool.not_eq_true',
          decide_eq_true_eq, decide_eq_false_iff_not] at hqr
        tauto
    simp only [pyMax2_eq_max]
    have hmax0 : (0 : ℚ)
        ≤ max 0 (headingRawScore text lineSize isBold isStandalone stats / 20) :=
      le_max_left _ _
    refine ⟨hmax0, ?_, by simp, ?_⟩
    · refine max_le (by norm_num) (by linarith)
    · simp only [decide_eq_true_eq, hq, true_and]
      constructor
      · intro hth
        rcases le_max_iff.mp hth with hth | hth
        · norm_num at hth
        · linarith
      · intro hth
        exact le_trans (by linarith) (le_max_right _ _)

/-! ## Claim C6: title suppression -/

/-- C6: after assembly, exactly the first entry is removed when its
text, compared case-insensitively, is a substring of the resolved
title; otherwise the outline is unchanged; an empty outline stays
empty. -/
theorem title_suppression_spec (title : String) (e : Entry) (rest : List Entry) :
    (substrCI e.text title = true → suppressTitle title (e :: rest) = rest)
    ∧ (substrCI e.text title = false → suppressTitle title (e :: rest) = e :: rest)
    ∧ suppressTitle title [] = [] := by
  refine ⟨?_, ?_, rfl⟩
  · intro h
    simp [suppressTitle, h]
  · intro h
    simp [suppressTitle, h]

/-- Witness for C6: the spec's own example, "annual report" inside
"Acme Corp Annual Report", is dropped, and a non-matching first entry
is retained. -/
theorem title_suppression_spec_witness :
    substrCI "annual report" "Acme Corp Annual Report" = true
    ∧ suppressTitle "Acme Corp Annual Report" [⟨"H1", "annual report", 1⟩] = []
    ∧ suppressTitle "Acme Corp Annual Report" [⟨"H1", "Methods", 1⟩]
        = [⟨"H1", "Methods", 1⟩] :=
  ⟨by decide,
   (title_suppression_spec "Acme Corp Annual Report" ⟨"H1", "annual report", 1⟩ []).1
     (by decide),
   (title_suppression_spec "Acme Corp Annual Report" ⟨"H1", "Methods", 1⟩ []).2.1
     (by decide)⟩

/-! ## Claim C8: degenerate and fallback branches of the estimator -/

/-- The median of a nonempty constant list is its constant value. -/
theorem pyMedian_const (xs : List ℚ) (a : ℚ) (hne : xs ≠ [])
    (h : ∀ x ∈ xs, x = a) : pyMedian xs = a := by
  have hmem : ∀ x ∈ isortBy qLe xs, x = a := fun x hx =>
    h x ((mem_isortBy qLe xs x).mp hx)
  have hn : 0 < (isortBy qLe xs).length := by
    rw [(isortBy_perm qLe xs).length_eq]
    exact List.length_pos.mpr hne
  unfold pyMedian
  by_cases hp : (isortBy qLe xs).length % 2 = 1
  · rw [if_pos hp]
    have hlt : (isortBy qLe xs).length / 2 < (isortBy qLe xs).length :=
      Nat.div_lt_self hn (by omega)
    rw [List.getD_eq_getElem _ _ hlt]
    exact hmem _ (List.getElem_mem hlt)
  · rw [if_neg hp]
    have hlt2 : (isortBy qLe xs).length / 2 < (isortBy qLe xs).length :=
      Nat.div_lt_self hn (by omega)
    have hlt1 : (isortBy qLe xs).length / 2 - 1 < (isortBy qLe xs).length := by omega
    rw [List.getD_eq_getElem _ _ hlt1, List.getD_eq_getElem _ _ hlt2,
      hmem _ (List.getElem_mem hlt1), hmem _ (List.getElem_mem hlt2)]
    ring

/-- The dedup of a nonempty constant list is the singleton of its value. -/
theorem dedup_const (xs : List ℚ) (a : ℚ) (hne : xs ≠ [])
    (h : ∀ x ∈ xs, x = a) : xs.dedup = [a] := by
  induction xs with
  | nil => exact absurd rfl hne
  | cons x rest ih =>
      have hx : x = a := h x (List.mem_cons_self x rest)
      by_cases hr : rest = []
      · subst hr hx
        rw [List.dedup_cons_of_not_mem (by simp), List.dedup_nil]
      · have hrest : rest.dedup = [a] :=
          ih hr (fun y hy => h y (List.mem_cons_of_mem x hy))
        have hmem : x ∈ rest := by
          rcases List.exists_mem_of_ne_nil rest hr with ⟨y, hy⟩
          have : y = a := h y (List.mem_cons_of_mem x hy)
          rw [hx, ← this]
          exact hy
        rw [List.dedup_cons_of_mem hmem, hrest]

/-- C8: when the collected samples are all identical (including a
single sample) the estimator returns the sample value as median and a
std_dev of exactly 1 (in particular nonzero); when no sample qualifies
it returns the fixed fallback median 11 and std_dev 1.5. -/
theorem body_style_estimator_spec (d : Doc) (sizes : List ℚ) (a : ℚ)
    (hc : collectSizes d = .ok sizes) :
    (sizes = [] →
      analyzeDocumentStyle d = .ok ⟨11, .fallback⟩ ∧ StdDev.fallback.val = 3/2)
    ∧ (sizes ≠ [] → (∀ x ∈ sizes, x = a) →
      analyzeDocumentStyle d = .ok ⟨a, .one⟩
        ∧ StdDev.one.val = 1 ∧ StdDev.one.val ≠ 0) := by
  constructor
  · rintro rfl
    refine ⟨?_, rfl⟩
    unfold analyzeDocumentStyle
    rw [hc]
    rfl
  · intro hne hall
    have hd : sizes.dedup = [a] := dedup_const sizes a hne hall
    have hm : pyMedian sizes = a := pyMedian_const sizes a hne hall
    refine ⟨?_, rfl, by norm_num [StdDev.val]⟩
    unfold analyzeDocumentStyle
    rw [hc]
    simp [Bind.bind, Except.bind, hne, hd, hm]

/-- Witness for C8: a document whose only qualifying block carries
three spans of size 10 yields median 10 and std_dev 1; a document with
no qualifying block yields the 11/1.5 fallback. -/
theorem body_style_estimator_spec_witness :
    (([10, 10, 10] : List ℚ) ≠ [] ∧ (∀ x ∈ ([10, 10, 10] : List ℚ), x = 10)
      ∧ analyzeDocumentStyle
          ⟨"T", [], [⟨100, [], [⟨0, 20, [⟨0, [⟨10, false, "a b c d"⟩]⟩,
            ⟨0, [⟨10, false, "x"⟩]⟩, ⟨0, [⟨10, false, "y"⟩]⟩]⟩]⟩]⟩
          = .ok ⟨10, .one⟩)
    ∧ analyzeDocumentStyle ⟨"T", [], [⟨100, [], []⟩]⟩ = .ok ⟨11, .fallback⟩ := by
  have hc1 : collectSizes
      ⟨"T", [], [⟨100, [], [⟨0, 20, [⟨0, [⟨10, false, "a b c d"⟩]⟩,
        ⟨0, [⟨10, false, "x"⟩]⟩, ⟨0, [⟨10, false, "y"⟩]⟩]⟩]⟩]⟩
      = .ok [10, 10, 10] := by
    norm_num [collectSizes, pagesSizes, blocksSizes, blockSizes, lineSizesIn,
      round1, pyRound, Bind.bind, Except.bind, List.filterMap_cons,
      (by decide : wordCount "a b c d" = 4)]
  have hc2 : collectSizes ⟨"T", [], [⟨100, [], []⟩]⟩ = .ok [] := by
    norm_num [collectSizes, pagesSizes, blocksSizes, Bind.bind, Except.bind]
  have hne : ([10, 10, 10] : List ℚ) ≠ [] := by simp
  have hall : ∀ x ∈ ([10, 10, 10] : List ℚ), x = 10 := by simp
  exact ⟨⟨hne, hall,
      ((body_style_estimator_spec _ _ 10 hc1).2 hne hall).1⟩,
    ((body_style_estimator_spec _ _ 0 hc2).1 rfl).1⟩

/-! ## Claim C5: ordering and duplicate removal of the assembler -/

/-- Spec-side duplicate removal after the first entry: an entry is
dropped exactly when its text and page equal those of the immediately
preceding entry of the sorted sequence. -/
def specDedupGo (prev : EntryY) : List EntryY → List Entry
  | [] => []
  | e :: rest =>
      if e.text = prev.text ∧ e.page = prev.page then specDedupGo e rest
      else ⟨e.level, e.text, e.page⟩ :: specDedupGo e rest

/-- Spec-side duplicate removal: the first entry (which has no
predecessor) is always kept. -/
def specDedup : List EntryY → List Entry
  | [] => []
  | e :: rest => ⟨e.level, e.text, e.page⟩ :: specDedupGo e rest

/-- The loop state of the source's dedup coincides with comparison
against the previous element once past the first entry. -/
theorem dedupGo_eq_specDedupGo (prev : EntryY) (l : List EntryY) :
    dedupGo prev.text prev.page l = specDedupGo prev l := by
  induction l generalizing prev with
  | nil => rfl
  | cons e rest ih =>
      simp only [dedupGo, specDedupGo]
      by_cases h : e.text = prev.text ∧ e.page = prev.page
      · rw [if_pos h, if_pos h]
        simpa using ih e
      · rw [if_neg h, if_neg h]
        simpa using ih e

/-- Totality of the reading-order comparison. -/
theorem entryLE_total (a b : EntryY) : entryLE a b = true ∨ entryLE b a = true := by
  simp only [entryLE, decide_eq_true_eq]
  rcases lt_trichotomy a.page b.page with h | h | h
  · exact Or.inl (Or.inl h)
  · rcases le_total a.yPos b.yPos with h2 | h2
    · exact Or.inl (Or.inr ⟨h, h2⟩)
    · exact Or.inr (Or.inr ⟨h.symm, h2⟩)
  · exact Or.inr (Or.inl h)

/-- Transitivity of the reading-order comparison. -/
theorem entryLE_trans (a b c : EntryY)
    (h1 : entryLE a b = true) (h2 : entryLE b c = true) : entryLE a c = true := by
  simp only [entryLE, decide_eq_true_eq] at h1 h2 ⊢
  rcases h1 with h1 | ⟨h1, h1y⟩
  · rcases h2 with h2 | ⟨h2, _⟩
    · exact Or.inl (lt_trans h1 h2)
    · exact Or.inl (h2 ▸ h1)
  · rcases h2 with h2 | ⟨h2, h2y⟩
    · exact Or.inl (h1 ▸ h2)
    · exact Or.inr ⟨h1.trans h2, h1y.trans h2y⟩

/-- C5: the Outline Assembler emits the leveled entries sorted by page
ascending then vertical position ascending (a permutation of its
input), and removes an entry exactly when its text and page equal those
of the immediately preceding entry of the sorted sequence; the page
hypothesis records that leveled candidates carry 1-based page numbers,
which keeps the source's (empty text, page -1) initial sentinel
unmatched. -/
theorem outline_assembler_spec (l : List EntryY) (h : ∀ e ∈ l, 1 ≤ e.page) :
    List.Perm (sortEntries l) l
    ∧ List.Pairwise
        (fun a b => a.page < b.page ∨ (a.page = b.page ∧ a.yPos ≤ b.yPos))
        (sortEntries l)
    ∧ dedupOutline (sortEntries l) = specDedup (sortEntries l) := by
  refine ⟨isortBy_perm entryLE l, ?_, ?_⟩
  · have hp := isortBy_pairwise entryLE entryLE_total entryLE_trans l
    exact hp.imp (fun hab => by simpa [entryLE, decide_eq_true_eq] using hab)
  · rcases hs : sortEntries l with _ | ⟨e, rest⟩
    · rfl
    · have he : e ∈ l := by
        have : e ∈ sortEntries l := by rw [hs]; exact List.mem_cons_self e rest
        exact (isortBy_perm entryLE l).mem_iff.mp this
      have hp : (1 : ℤ) ≤ e.page := h e he
      have hcond : ¬(e.text = "" ∧ e.page = -1) := by
        rintro ⟨-, hpage⟩
        omega
      simp only [dedupOutline, dedupGo, specDedup]
      rw [if_neg hcond]
      simpa using dedupGo_eq_specDedupGo e rest

/-- Witness for C5: two consecutive identical (text, page) entries
collapse to one while the same text on a later page is retained;
instantiates the assembler theorem on that concrete list. -/
theorem outline_assembler_spec_witness :
    (∀ e ∈ ([⟨"H1", "A", 1, 5⟩, ⟨"H1", "A", 1, 5⟩, ⟨"H2", "A", 2, 0⟩] : List EntryY),
      1 ≤ e.page)
    ∧ (List.Perm
        (sortEntries [⟨"H1", "A", 1, 5⟩, ⟨"H1", "A", 1, 5⟩, ⟨"H2", "A", 2, 0⟩])
        [⟨"H1", "A", 1, 5⟩, ⟨"H1", "A", 1, 5⟩, ⟨"H2", "A", 2, 0⟩]
      ∧ List.Pairwise
          (fun a b => a.page < b.page ∨ (a.page = b.page ∧ a.yPos ≤ b.yPos))
          (sortEntries [⟨"H1", "A", 1, 5⟩, ⟨"H1", "A", 1, 5⟩, ⟨"H2", "A", 2, 0⟩])
      ∧ dedupOutline
          (sortEntries [⟨"H1", "A", 1, 5⟩, ⟨"H1", "A", 1, 5⟩, ⟨"H2", "A", 2, 0⟩])
        = specDedup
          (sortEntries [⟨"H1", "A", 1, 5⟩, ⟨"H1", "A", 1, 5⟩, ⟨"H2", "A", 2, 0⟩])) :=
  ⟨by
    intro e he
    rcases List.mem_cons.mp he with rfl | he
    · norm_num
    rcases List.mem_cons.mp he with rfl | he
    · norm_num
    rcases List.mem_cons.mp he with rfl | he
    · norm_num
    · simp at he,
   outline_assembler_spec _ (by
    intro e he
    rcases List.mem_cons.mp he with rfl | he
    · norm_num
    rcases List.mem_cons.mp he with rfl | he
    · norm_num
    rcases List.mem_cons.mp he with rfl | he
    · norm_num
    · simp at he)⟩

/-! ## Claim C4: the Visual-Signature Leveler -/

/-- The signature comparison in propositional form: bold strictly
before non-bold, ties on boldness broken by larger bucketed size. -/
theorem sigLE_iff (a b : Bool × ℚ) :
    sigLE a b = true ↔ ((a.1 = b.1 ∧ b.2 ≤ a.2) ∨ (a.1 = true ∧ b.1 = false)) := by
  cases ha : a.1 <;> cases hb : b.1 <;> simp [sigLE, ha, hb]

/-- Totality of the signature comparison. -/
theorem sigLE_total (a b : Bool × ℚ) : sigLE a b = true ∨ sigLE b a = true := by
  by_cases h : a.1 = b.1
  · rcases le_total b.2 a.2 with h2 | h2
    · exact Or.inl (by simp [sigLE, h, h2])
    · exact Or.inr (by simp [sigLE, h.symm, h2])
  · cases ha : a.1
    · have hb : b.1 = true := by
        cases hb2 : b.1
        · exact absurd (ha.trans hb2.symm) h
        · rfl
      exact Or.inr (by simp [sigLE, ha, hb])
    · have hb : b.1 = false := by
        cases hb2 : b.1
        · rfl
        · exact absurd (ha.trans hb2.symm) h
      exact Or.inl (by simp [sigLE, ha, hb])

/-- Transitivity of the signature comparison. -/
theorem sigLE_trans (a b c : Bool × ℚ)
    (h1 : sigLE a b = true) (h2 : sigLE b c = true) : sigLE a c = true := by
  cases ha : a.1 <;> cases hb : b.1 <;> cases hc : c.1 <;>
    simp [sigLE, ha, hb, hc] at h1 h2 ⊢ <;>
    exact le_trans h2 h1

/-- The distinct-signature list is duplicate-free. -/
theorem sortedSigs_nodup (cands : List Candidate) : (sortedSigs cands).Nodup :=
  ((isortBy_perm sigLE _).nodup_iff).mpr
    (List.nodup_dedup (cands.map getVisualSignature))

/-- Every candidate's signature occurs in the distinct-signature list. -/
theorem sig_mem_sortedSigs (cands : List Candidate) (c : Candidate)
    (hc : c ∈ cands) : getVisualSignature c ∈ sortedSigs cands := by
  apply (mem_isortBy _ _ _).mpr
  rw [List.mem_dedup]
  exact List.mem_map_of_mem _ hc

/-- Looking a signature up in the level map is determined by its rank
in the sorted distinct-signature list: ranks 0, 1, 2 yield H1, H2, H3
and any lower rank yields nothing. -/
theorem sigLookup_rank (ss : List (Bool × ℚ)) (s : Bool × ℚ)
    (hnd : ss.Nodup) (hmem : s ∈ ss) :
    (ss.findIdx (fun x => x = s) = 0 → sigLookup (levelAssoc ss) s = some "H1")
    ∧ (ss.findIdx (fun x => x = s) = 1 → sigLookup (levelAssoc ss) s = some "H2")
    ∧ (ss.findIdx (fun x => x = s) = 2 → sigLookup (levelAssoc ss) s = some "H3")
    ∧ (3 ≤ ss.findIdx (fun x => x = s) → sigLookup (levelAssoc ss) s = none) := by
  rcases ss with _ | ⟨a, _ | ⟨b, _ | ⟨c, rest⟩⟩⟩
  · simp at hmem
  · have hs : s = a := by simpa using hmem
    subst hs
    have hr : List.findIdx (fun x => x = s) [s] = 0 := by simp [List.findIdx_cons]
    have hl : sigLookup (levelAssoc [s]) s = some "H1" := by simp [levelAssoc, sigLookup]
    rw [hr]
    exact ⟨fun _ => hl, fun h => by omega, fun h => by omega, fun h => by omega⟩
  · have hab : a ≠ b := by
      rcases List.nodup_cons.mp hnd with ⟨ha, -⟩
      simpa using ha
    rcases (by simpa using hmem : s = a ∨ s = b) with rfl | rfl
    · have hr : List.findIdx (fun x => x = s) [s, b] = 0 := by simp [List.findIdx_cons]
      have hl : sigLookup (levelAssoc [s, b]) s = some "H1" := by
        simp [levelAssoc, sigLookup]
      rw [hr]
      exact ⟨fun _ => hl, fun h => by omega, fun h => by omega, fun h => by omega⟩
    · have hr : List.findIdx (fun x => x = s) [a, s] = 1 := by
        simp [List.findIdx_cons, hab]
      have hl : sigLookup (levelAssoc [a, s]) s = some "H2" := by
        simp [levelAssoc, sigLookup, Ne.symm hab]
      rw [hr]
      exact ⟨fun h => by omega, fun _ => hl, fun h => by omega, fun h => by omega⟩
  · rcases List.nodup_cons.mp hnd with ⟨ha, hnd1⟩
    rcases List.nodup_cons.mp hnd1 with ⟨hb, hnd2⟩
    rcases List.nodup_cons.mp hnd2 with ⟨hcn, -⟩
    have hab : a ≠ b := by simp at ha; tauto
    have hac : a ≠ c := by simp at ha; tauto
    have hbc : b ≠ c := by simp at hb; tauto
    have har : a ∉ rest := by simp at ha; tauto
    have hbr : b ∉ rest := by simp at hb; tauto
    rcases List.mem_cons.mp hmem with rfl | hmem1
    · have hr : List.findIdx (fun x => x = s) (s :: b :: c :: rest) = 0 := by
        simp [List.findIdx_cons]
      have hl : sigLookup (levelAssoc (s :: b :: c :: rest)) s = some "H1" := by
        simp [levelAssoc, sigLookup]
      rw [hr]
      exact ⟨fun _ => hl, fun h => by omega, fun h => by omega, fun h => by omega⟩
    rcases List.mem_cons.mp hmem1 with rfl | hmem2
    · have hr : List.findIdx (fun x => x = s) (a :: s :: c :: rest) = 1 := by
        simp [List.findIdx_cons, hab]
      have hl : sigLookup (levelAssoc (a :: s :: c :: rest)) s = some "H2" := by
        simp [levelAssoc, sigLookup, Ne.symm hab]
      rw [hr]
      exact ⟨fun h => by omega, fun _ => hl, fun h => by omega, fun h => by omega⟩
    rcases List.mem_cons.mp hmem2 with rfl | hmem3
    · have hr : List.findIdx (fun x => x = s) (a :: b :: s :: rest) = 2 := by
        simp [List.findIdx_cons, hac, hbc]
      have hl : sigLookup (levelAssoc (a :: b :: s :: rest)) s = some "H3" := by
        simp [levelAssoc, sigLookup, Ne.symm hac, Ne.symm hbc]
      rw [hr]
      exact ⟨fun h => by omega, fun h => by omega, fun _ => hl, fun h => by omega⟩
    · have hsa : s ≠ a := fun h => har (h ▸ hmem3)
      have hsb : s ≠ b := fun h => hbr (h ▸ hmem3)
      have hsc : s ≠ c := fun h => hcn (h ▸ hmem3)
      have hr : List.findIdx (fun x => x = s) (a :: b :: c :: rest)
          = rest.findIdx (fun x => x = s) + 3 := by
        simp [List.findIdx_cons, Ne.symm hsa, Ne.symm hsb, Ne.symm hsc]
        try omega
      have hl : sigLookup (levelAssoc (a :: b :: c :: rest)) s = none := by
        simp [levelAssoc, sigLookup, hsa, hsb, hsc]
      rw [hr]
      exact ⟨fun h => by omega, fun h => by omega, fun h => by omega, fun _ => hl⟩

/-- Each leveled entry originates from a candidate whose signature is
mapped by the level map, carrying that candidate's text, page, vertical
position and assigned level. -/
theorem mem_leveledEntries (cands : List Candidate) (e : EntryY)
    (he : e ∈ leveledEntries cands) :
    ∃ c ∈ cands, ∃ lv,
      sigLookup (levelAssoc (sortedSigs cands)) (getVisualSignature c) = some lv
      ∧ e = ⟨lv, c.text, c.page, c.yPos⟩ := by
  unfold leveledEntries at he
  rcases List.mem_filterMap.mp he with ⟨c, hc, hfc⟩
  rcases Option.map_eq_some'.mp hfc with ⟨lv, hlv, hev⟩
  exact ⟨c, hc, lv, hlv, hev.symm⟩

/-- C4: for a non-empty candidate set, the distinct signatures are
sorted descending by boldness then bucketed size without duplicates;
each candidate's level is determined by the rank of its signature in
that order — ranks 0, 1, 2 receive H1, H2, H3 and lower ranks are
dropped — and a candidate set with exactly 2 distinct signatures never
yields an H3 entry. -/
theorem leveler_rank_spec (cands : List Candidate) (_hne : cands ≠ []) :
    List.Pairwise
      (fun a b => (a.1 = b.1 ∧ b.2 ≤ a.2) ∨ (a.1 = true ∧ b.1 = false))
      (sortedSigs cands)
    ∧ (sortedSigs cands).Nodup
    ∧ (∀ c ∈ cands,
        ((sortedSigs cands).findIdx (fun x => x = getVisualSignature c) = 0 →
          sigLookup (levelAssoc (sortedSigs cands)) (getVisualSignature c) = some "H1")
        ∧ ((sortedSigs cands).findIdx (fun x => x = getVisualSignature c) = 1 →
          sigLookup (levelAssoc (sortedSigs cands)) (getVisualSignature c) = some "H2")
        ∧ ((sortedSigs cands).findIdx (fun x => x = getVisualSignature c) = 2 →
          sigLookup (levelAssoc (sortedSigs cands)) (getVisualSignature c) = some "H3")
        ∧ (3 ≤ (sortedSigs cands).findIdx (fun x => x = getVisualSignature c) →
          sigLookup (levelAssoc (sortedSigs cands)) (getVisualSignature c) = none))
    ∧ ((sortedSigs cands).length = 2 →
        ∀ e ∈ leveledEntries cands, e.level ≠ "H3") := by
  refine ⟨?_, sortedSigs_nodup cands, ?_, ?_⟩
  · exact (isortBy_pairwise sigLE sigLE_total sigLE_trans _).imp
      (fun hab => (sigLE_iff _ _).mp hab)
  · intro c hc
    exact sigLookup_rank (sortedSigs cands) (getVisualSignature c)
      (sortedSigs_nodup cands) (sig_mem_sortedSigs cands c hc)
  · intro hlen e he
    rcases List.length_eq_two.mp hlen with ⟨a, b, hab⟩
    rcases mem_leveledEntries cands e he with ⟨c, -, lv, hlv, rfl⟩
    rw [hab] at hlv
    simp only [levelAssoc, sigLookup] at hlv
    split_ifs at hlv
    · obtain rfl := (Option.some_inj.mp hlv).symm
      exact (by decide : ¬("H1" = "H3"))
    · obtain rfl := (Option.some_inj.mp hlv).symm
      exact (by decide : ¬("H2" = "H3"))

/-- Witness for C4: two candidates with two distinct signatures, on
which the leveler theorem instantiates; no H3 entry appears. -/
theorem leveler_rank_spec_witness :
    (([⟨"A", 20, 1, 0, true⟩, ⟨"B", 10, 2, 3, false⟩] : List Candidate) ≠ [])
    ∧ ((sortedSigs [⟨"A", 20, 1, 0, true⟩, ⟨"B", 10, 2, 3, false⟩]).length = 2 →
        ∀ e ∈ leveledEntries [⟨"A", 20, 1, 0, true⟩, ⟨"B", 10, 2, 3, false⟩],
          e.level ≠ "H3") :=
  ⟨by simp, (leveler_rank_spec _ (by simp)).2.2.2⟩

/-! ## Claim C1: the TOC golden path -/

/-- A page whose only line is a large bold heading, used to show the
heuristic pipeline running. -/
def c1Line : Line := ⟨50, [⟨15, true, "RESULTS"⟩]⟩

/-- First page of the C1 counterexample document. -/
def c1Page : Page := ⟨100, [⟨0, 40, [c1Line]⟩], []⟩

/-- A document that exposes a TOC, but one whose entries all have level
4: the filtered TOC outline is empty and the source falls through to
the heuristic pipeline. -/
def c1Doc : Doc := ⟨"My Document", [(4, "Deep", 1)], [c1Page]⟩

/-- Counterexample to C1 as stated: this document exposes a built-in
TOC, yet its output outline is a heuristic heading, not the (empty)
list of TOC entries with level 1..3 — the heuristic pipeline does run
when the TOC has no entry in range. -/
theorem toc_present_heuristics_still_run :
    extractOutline "doc.pdf" (.doc c1Doc)
      = .ok (.result "My Document" [⟨"H1", "RESULTS", 1⟩])
    ∧ c1Doc.toc ≠ []
    ∧ ([⟨"H1", "RESULTS", 1⟩] : List Entry) ≠ tocOutline c1Doc.toc := by
  have htc : c1Doc.toc = [(4, "Deep", 1)] := rfl
  have hpg : c1Doc.pages = [c1Page] := rfl
  have hmt : c1Doc.metadataTitle = "My Document" := rfl
  have htoc : tocOutline [((4 : ℤ), "Deep", (1 : ℤ))] = [] := by decide
  have hres : resolveTitle "doc.pdf" "My Document" c1Page = "My Document" := by
    norm_num [resolveTitle, (by decide : pyStrip "My Document" = "My Document"),
      (by decide : ¬(("My Document" : String) = "")),
      (by decide : ("My Document" : String).length = 11)]
  have hstats : analyzeDocumentStyle c1Doc = .ok ⟨11, .fallback⟩ := by
    have hcs : collectSizes c1Doc = .ok [] := by
      norm_num [collectSizes, pagesSizes, blocksSizes, c1Doc, c1Page,
        Bind.bind, Except.bind]
    unfold analyzeDocumentStyle
    rw [hcs]
    rfl
  have hbold : lineIsBold c1Line "RESULTS" = true := by
    norm_num [lineIsBold, c1Line, (by decide : ¬(("RESULTS" : String) = "")),
      (by decide : ("RESULTS" : String).length = 7)]
  have hhead : isLineAHeading "RESULTS" 15 true true ⟨11, .fallback⟩ = (true, 17/20) := by
    norm_num [isLineAHeading, pyMax2, headingRawScore, rawScoreOf,
      (by decide : getTextCharacteristics "RESULTS" = ⟨true, false, false, 1, 7⟩),
      (by decide : headingPattern "RESULTS" = false),
      (by decide : pyIsdigit "RESULTS" = false),
      (by decide : ¬(("RESULTS" : String) = ""))]
  have hproc : processLine ⟨11, .fallback⟩ 1 true c1Line
      = some ⟨"RESULTS", 15, 1, 50, true⟩ := by
    norm_num [processLine, (by decide : lineText c1Line = "RESULTS"),
      (show c1Line.spans = [⟨15, true, "RESULTS"⟩] from rfl),
      (show c1Line.bboxTop = 50 from rfl), hbold, hhead, qMean, round1, pyRound]
  have hscan : scanDoc ⟨11, .fallback⟩ c1Doc = [⟨"RESULTS", 15, 1, 50, true⟩] := by
    norm_num [scanDoc, c1Doc, c1Page, scanPagesFrom, scanPage, hproc,
      List.filterMap_cons, List.filterMap_nil]
  have hlev : leveledEntries [⟨"RESULTS", 15, 1, 50, true⟩]
      = [⟨"H1", "RESULTS", 1, 50⟩] := by
    norm_num [leveledEntries, sortedSigs, getVisualSignature, roundHalf, pyRound,
      isortBy, insertBy, levelAssoc, sigLookup, List.filterMap_cons,
      List.filterMap_nil, List.dedup_cons_of_not_mem]
  have hsort : sortEntries [⟨"H1", "RESULTS", 1, 50⟩] = [⟨"H1", "RESULTS", 1, 50⟩] := by
    simp [sortEntries, isortBy, insertBy]
  have hdedup : dedupOutline [⟨"H1", "RESULTS", 1, 50⟩] = [⟨"H1", "RESULTS", 1⟩] := by
    norm_num [dedupOutline, dedupGo, (by decide : ¬(("RESULTS" : String) = ""))]
  have hsupp : suppressTitle "My Document" [⟨"H1", "RESULTS", 1⟩]
      = [⟨"H1", "RESULTS", 1⟩] := by
    simp [suppressTitle, (by decide : substrCI "RESULTS" "My Document" = false)]
  refine ⟨?_, by rw [htc]; simp, by rw [htc, htoc]; simp⟩
  simp only [extractOutline, hpg, hmt, htc, htoc, hres, hstats, hscan, hlev,
    hsort, hdedup, hsupp, Bind.bind, Except.bind]
  norm_num

/-- C1 amended: when the TOC's filtered outline is nonempty (at least
one entry with level 1..3), the result is exactly the resolved title
together with the TOC outline — levels mapped to H followed by the TOC
level, texts stripped, pages unchanged — independent of every heuristic
component. -/
theorem toc_golden_path (path : String) (d : Doc) (p : Page) (rest : List Page)
    (hp : d.pages = p :: rest) (ht : tocOutline d.toc ≠ []) :
    extractOutline path (.doc d)
      = .ok (.result (resolveTitle path d.metadataTitle p) (tocOutline d.toc)) := by
  simp only [extractOutline, hp]
  simp [ht]

/-- Witness for C1: a one-entry level-1 TOC short-circuits to the TOC
outline. -/
theorem toc_golden_path_witness :
    (⟨"Valid Title", [(1, " A ", 2)], [⟨100, [], []⟩]⟩ : Doc).pages
        = (⟨100, [], []⟩ : Page) :: []
    ∧ tocOutline [((1 : ℤ), " A ", (2 : ℤ))] ≠ []
    ∧ extractOutline "y.pdf" (.doc ⟨"Valid Title", [(1, " A ", 2)], [⟨100, [], []⟩]⟩)
      = .ok (.result
          (resolveTitle "y.pdf"
            (⟨"Valid Title", [(1, " A ", 2)], [⟨100, [], []⟩]⟩ : Doc).metadataTitle
            ⟨100, [], []⟩)
          (tocOutline (⟨"Valid Title", [(1, " A ", 2)], [⟨100, [], []⟩]⟩ : Doc).toc)) :=
  ⟨rfl, by decide,
   toc_golden_path "y.pdf" ⟨"Valid Title", [(1, " A ", 2)], [⟨100, [], []⟩]⟩
     ⟨100, [], []⟩ [] rfl (by decide)⟩

/-! ## Claim C9: totality of the heuristic branches -/

/-- A document whose only clipped block has three lines, the first of
which has no spans: analyze_document_style indexes lines[0].spans[0]
without a guard there (although the scanner and the title resolver both
guard span-less lines), raising IndexError. -/
def c9Doc : Doc :=
  ⟨"Crash Doc Title", [], [⟨100, [], [⟨0, 20, [⟨0, []⟩, ⟨0, []⟩, ⟨0, []⟩]⟩]⟩]⟩

/-- C9 is a code bug: the open-failure path is indeed returned as an
error record, but the body-style estimator is not total — on c9Doc the
heuristic path raises IndexError past the extract_outline boundary
(modelled as Except.error), contradicting the claim that only the
open-failure path escapes. -/
theorem heuristic_path_raises_on_spanless_first_line :
    extractOutline "x.pdf" (.failure "boom")
      = .ok (.error ("Failed to open PDF: " ++ "boom"))
    ∧ extractOutline "x.pdf" (.doc c9Doc)
      = .error "IndexError: list index out of range" := by
  constructor
  · rfl
  · have hcs : collectSizes c9Doc = .error "IndexError: list index out of range" := by
      norm_num [collectSizes, pagesSizes, blocksSizes, blockSizes, c9Doc,
        Bind.bind, Except.bind]
    have hst : analyzeDocumentStyle c9Doc
        = .error "IndexError: list index out of range" := by
      unfold analyzeDocumentStyle
      rw [hcs]
      rfl
    have hpg : c9Doc.pages = [(⟨100, [], [⟨0, 20, [⟨0, []⟩, ⟨0, []⟩, ⟨0, []⟩]⟩]⟩ : Page)] :=
      rfl
    have htc : c9Doc.toc = [] := rfl
    simp only [extractOutline, hpg, htc, hst, Bind.bind, Except.bind]
    simp [tocOutline]

/-! ## Claim C7: the Title Resolver -/

/-- First page whose single line's first span strips to the 2-word,
6-character text "Hi all" — a title candidate for the source, but not
for the claim's 4-to-14-word rule. -/
def c7Page : Page := ⟨100, [⟨0, 10, [⟨5, [⟨20, false, " Hi all "⟩]⟩]⟩], []⟩

/-- Counterexample to C7 as stated: with no usable metadata title, the
source accepts the 2-word candidate "Hi all" (its filter is more than 3
characters and fewer than 15 words, not 4..14 words) instead of falling
back to the file's base name as the claim requires. -/
theorem title_resolver_accepts_short_word_counts :
    resolveTitle "input/doc.pdf" "" c7Page = "Hi all"
    ∧ wordCount "Hi all" = 2
    ∧ "Hi all" ≠ pyBasename "input/doc.pdf" := by
  refine ⟨?_, by decide, by decide⟩
  norm_num [resolveTitle, titleCandidates, pyMaxByFst, c7Page,
    (by decide : pyStrip "" = ""), (by decide : pyStrip " Hi all " = "Hi all"),
    (by decide : wordCount "Hi all" = 2),
    (by decide : ("Hi all" : String).length = 6),
    List.filterMap_cons, List.filterMap_nil]

/-- The running maximum of Python max(key=first): it is an element of
the list with a maximal first component. -/
theorem foldl_max_fst (xs : List (ℚ × String)) (x : ℚ × String) :
    (xs.foldl (fun best y => if best.1 < y.1 then y else best) x) ∈ x :: xs
    ∧ x.1 ≤ (xs.foldl (fun best y => if best.1 < y.1 then y else best) x).1
    ∧ ∀ q ∈ xs, q.1 ≤ (xs.foldl (fun best y => if best.1 < y.1 then y else best) x).1 := by
  induction xs generalizing x with
  | nil => simp
  | cons y ys ih =>
      simp only [List.foldl_cons]
      rcases ih (if x.1 < y.1 then y else x) with ⟨hmem, hle, hall⟩
      have hxz : x.1 ≤ (if x.1 < y.1 then y else x).1 := by
        split_ifs with h
        · exact le_of_lt h
        · exact le_refl _
      have hyz : y.1 ≤ (if x.1 < y.1 then y else x).1 := by
        split_ifs with h
        · exact le_refl _
        · exact not_lt.mp h
      refine ⟨?_, le_trans hxz hle, ?_⟩
      · rcases List.mem_cons.mp hmem with heq | hmem2
        · rw [heq]
          split_ifs
          · exact List.mem_cons_of_mem _ (List.mem_cons_self _ _)
          · exact List.mem_cons_self _ _
        · exact List.mem_cons_of_mem _ (List.mem_cons_of_mem _ hmem2)
      · intro q hq
        rcases List.mem_cons.mp hq with rfl | hq2
        · exact le_trans hyz hle
        · exact hall q hq2

/-- Python max over a nonempty candidate list returns a member with
maximal score. -/
theorem pyMaxByFst_spec (l : List (ℚ × String)) (hne : l ≠ []) :
    ∃ pr ∈ l, pyMaxByFst l = some pr ∧ ∀ q ∈ l, q.1 ≤ pr.1 := by
  rcases l with _ | ⟨x, xs⟩
  · exact absurd rfl hne
  · rcases foldl_max_fst xs x with ⟨hmem, hx, hall⟩
    refine ⟨_, hmem, rfl, ?_⟩
    intro q hq
    rcases List.mem_cons.mp hq with rfl | hq2
    · exact hx
    · exact hall q hq2

/-- C7 amended: when the stripped metadata title has fewer than 5
characters, the candidates are exactly the stripped first-span texts of
every line of upper-half first-page text blocks with more than 3
characters and fewer than 15 words, scored as size plus 2 when bold;
the title is a maximal-score candidate's text, or the file's base name
when no candidate qualifies. -/
theorem title_resolver_spec (path metaTitle : String) (p : Page)
    (hshort : (pyStrip metaTitle).length < 5) :
    (∀ sc t, (sc, t) ∈ titleCandidates p ↔
      ∃ b ∈ p.blocks, b.btype = 0 ∧ b.bboxTop < p.height / 2
        ∧ ∃ ln ∈ b.lines, ∃ s0 rest2, ln.spans = s0 :: rest2
          ∧ t = pyStrip s0.text ∧ 3 < t.length ∧ wordCount t < 15
          ∧ sc = s0.size + (if s0.bold then 2 else 0))
    ∧ (titleCandidates p = [] → resolveTitle path metaTitle p = pyBasename path)
    ∧ (titleCandidates p ≠ [] →
        ∃ pr ∈ titleCandidates p, resolveTitle path metaTitle p = pr.2
          ∧ ∀ q ∈ titleCandidates p, q.1 ≤ pr.1) := by
  refine ⟨?_, ?_, ?_⟩
  · intro sc t
    unfold titleCandidates
    rw [List.mem_flatMap]
    constructor
    · rintro ⟨b, hb, hmem⟩
      split_ifs at hmem with hcond
      · rcases List.mem_filterMap.mp hmem with ⟨ln, hln, hsome⟩
        rcases hsp : ln.spans with _ | ⟨s0, rest2⟩
        · rw [hsp] at hsome
          cases hsome
        · rw [hsp] at hsome
          simp only at hsome
          by_cases hlen : 3 < (pyStrip s0.text).length
              ∧ wordCount (pyStrip s0.text) < 15
          · rw [if_pos hlen] at hsome
            simp only [Option.some_inj, Prod.mk.injEq] at hsome
            exact ⟨b, hb, hcond.1, hcond.2, ln, hln, s0, rest2, hsp,
              hsome.2.symm, hsome.2 ▸ hlen.1, hsome.2 ▸ hlen.2, hsome.1.symm⟩
          · rw [if_neg hlen] at hsome
            cases hsome
      · cases hmem
    · rintro ⟨b, hb, hb0, hbh, ln, hln, s0, rest2, hsp, ht, hlen, hwc, hsc⟩
      refine ⟨b, hb, ?_⟩
      rw [if_pos ⟨hb0, hbh⟩]
      apply List.mem_filterMap.mpr
      refine ⟨ln, hln, ?_⟩
      rw [hsp]
      simp only
      rw [if_pos ⟨ht ▸ hlen, ht ▸ hwc⟩, ht, hsc]
  · intro hcand
    unfold resolveTitle
    rw [if_pos (Or.inr hshort), hcand]
    rfl
  · intro hne
    rcases pyMaxByFst_spec _ hne with ⟨pr, hm, hfold, hmax⟩
    refine ⟨pr, hm, ?_, hmax⟩
    unfold resolveTitle
    rw [if_pos (Or.inr hshort), hfold]

/-- Witness for C7: the amended resolver theorem applied at the
concrete first page c7Page with an absent metadata title. -/
theorem title_resolver_spec_witness :
    (pyStrip "").length < 5
    ∧ (titleCandidates c7Page = [] →
        resolveTitle "input/doc.pdf" "" c7Page = pyBasename "input/doc.pdf") :=
  ⟨by decide, (title_resolver_spec "input/doc.pdf" "" c7Page (by decide)).2.1⟩

/-! ## Claim C10: levels and page numbers of produced outlines -/

/-- A document whose TOC names page 0: the TOC path passes the page
through unchanged. -/
def c10Doc : Doc := ⟨"Valid Title", [(1, " X ", 0)], [⟨100, [], []⟩]⟩

/-- Counterexample to C10 as stated: a TOC entry naming page 0 is
emitted with page 0, which is not a 1-based page index. -/
theorem toc_page_zero_passes_through :
    extractOutline "y.pdf" (.doc c10Doc)
      = .ok (.result "Valid Title" [⟨"H1", "X", 0⟩])
    ∧ ¬(1 ≤ (⟨"H1", "X", (0 : ℤ)⟩ : Entry).page) := by
  constructor
  · decide
  · decide

/-- Suppression only ever removes entries. -/
theorem mem_suppressTitle (t : String) (l : List Entry) (e : Entry)
    (he : e ∈ suppressTitle t l) : e ∈ l := by
  rcases l with _ | ⟨x, rest⟩
  · simp [suppressTitle] at he
  · simp only [suppressTitle] at he
    split_ifs at he
    · exact List.mem_cons_of_mem x he
    · exact he

/-- Every emitted deduplicated entry is the level/text/page projection
of an input entry. -/
theorem mem_dedupGo (l : List EntryY) (e : Entry) :
    ∀ lt lp, e ∈ dedupGo lt lp l → ∃ ey ∈ l, e = ⟨ey.level, ey.text, ey.page⟩ := by
  induction l with
  | nil =>
      intro lt lp he
      simp [dedupGo] at he
  | cons x rest ih =>
      intro lt lp he
      simp only [dedupGo] at he
      rcases List.mem_append.mp he with h1 | h2
      · split_ifs at h1
        · simp at h1
        · exact ⟨x, List.mem_cons_self _ _, by simpa using h1⟩
      · rcases ih _ _ h2 with ⟨ey, hey, heq⟩
        exact ⟨ey, List.mem_cons_of_mem _ hey, heq⟩

/-- Candidates recorded while scanning page n carry page number n. -/
theorem scanPage_page (stats : BodyStats) (n : ℕ) (p : Page) (c : Candidate)
    (hc : c ∈ scanPage stats n p) : c.page = (n : ℤ) := by
  unfold scanPage at hc
  rcases List.mem_flatMap.mp hc with ⟨b, hb, hcb⟩
  split_ifs at hcb
  · rcases List.mem_filterMap.mp hcb with ⟨ln, hln, hsome⟩
    unfold processLine at hsome
    dsimp only at hsome
    split_ifs at hsome
    obtain rfl := Option.some_inj.mp hsome
    rfl
  · simp at hcb

/-- Every candidate of the scanner carries a page number of at least 1. -/
theorem scanPagesFrom_page (stats : BodyStats) :
    ∀ (ps : List Page) (i : ℕ) (c : Candidate),
      c ∈ scanPagesFrom stats i ps → 1 ≤ c.page := by
  intro ps
  induction ps with
  | nil =>
      intro i c hc
      simp [scanPagesFrom] at hc
  | cons p rest ih =>
      intro i c hc
      rcases List.mem_append.mp (by simpa [scanPagesFrom] using hc) with h1 | h2
      · rw [scanPage_page stats (i + 1) p c h1]
        exact_mod_cast Nat.succ_le_succ (Nat.zero_le i)
      · exact ih (i + 1) c h2

/-- Whatever the signature list, the level map only ever assigns H1, H2
or H3. -/
theorem sigLookup_levelAssoc_vals (ss : List (Bool × ℚ)) (s : Bool × ℚ) (lv : String)
    (h : sigLookup (levelAssoc ss) s = some lv) :
    lv = "H1" ∨ lv = "H2" ∨ lv = "H3" := by
  rcases ss with _ | ⟨a, _ | ⟨b, _ | ⟨c, rest⟩⟩⟩
  · simp [levelAssoc, sigLookup] at h
  · simp only [levelAssoc, sigLookup] at h
    by_cases hs : s = a
    · rw [if_pos hs] at h
      exact Or.inl (Option.some_inj.mp h).symm
    · rw [if_neg hs] at h
      cases h
  · simp only [levelAssoc, sigLookup] at h
    by_cases hs : s = a
    · rw [if_pos hs] at h
      exact Or.inl (Option.some_inj.mp h).symm
    · rw [if_neg hs] at h
      by_cases hs2 : s = b
      · rw [if_pos hs2] at h
        exact Or.inr (Or.inl (Option.some_inj.mp h).symm)
      · rw [if_neg hs2] at h
        cases h
  · simp only [levelAssoc, sigLookup] at h
    by_cases hs : s = a
    · rw [if_pos hs] at h
      exact Or.inl (Option.some_inj.mp h).symm
    · rw [if_neg hs] at h
      by_cases hs2 : s = b
      · rw [if_pos hs2] at h
        exact Or.inr (Or.inl (Option.some_inj.mp h).symm)
      · rw [if_neg hs2] at h
        by_cases hs3 : s = c
        · rw [if_pos hs3] at h
          exact Or.inr (Or.inr (Option.some_inj.mp h).symm)
        · rw [if_neg hs3] at h
          cases h

/-- C10 amended: every entry of a produced outline has a level among
H1, H2, H3 unconditionally; its page is at least 1 unconditionally on
the heuristic path (taken exactly when the filtered TOC outline is
empty), while on the TOC path the page is some in-range TOC entry's
page passed through unchanged — hence at least 1 whenever the
document's own TOC names pages of at least 1. -/
theorem outline_entries_wellformed (path : String) (d : Doc) (title : String)
    (outline : List Entry)
    (hres : extractOutline path (.doc d) = .ok (.result title outline)) :
    ∀ e ∈ outline,
      (e.level = "H1" ∨ e.level = "H2" ∨ e.level = "H3")
      ∧ (tocOutline d.toc = [] → 1 ≤ e.page)
      ∧ (tocOutline d.toc ≠ [] →
          ∃ te ∈ d.toc, (1 ≤ te.1 ∧ te.1 ≤ 3) ∧ e.page = te.2.2)
      ∧ ((∀ te ∈ d.toc, 1 ≤ te.2.2) → 1 ≤ e.page) := by
  intro e he
  rcases hpg : d.pages with _ | ⟨p, rest⟩
  · simp only [extractOutline, hpg] at hres
    simp only [Except.ok.injEq, ExtractionResult.result.injEq] at hres
    rcases hres with ⟨-, houtl⟩
    rw [← houtl] at he
    simp at he
  · simp only [extractOutline, hpg] at hres
    by_cases htO : tocOutline d.toc ≠ []
    · rw [if_pos htO] at hres
      simp only [Except.ok.injEq, ExtractionResult.result.injEq] at hres
      rcases hres with ⟨-, houtl⟩
      rw [← houtl] at he
      unfold tocOutline at he
      rcases List.mem_filterMap.mp he with ⟨te, hte, hsome⟩
      by_cases hc13 : 1 ≤ te.1 ∧ te.1 ≤ 3
      · rw [if_pos hc13] at hsome
        obtain rfl := Option.some_inj.mp hsome
        refine ⟨?_, fun h0 => absurd h0 htO, fun _ => ⟨te, hte, hc13, rfl⟩,
          fun hall => hall te hte⟩
        rcases hc13 with ⟨h1, h3⟩
        have hint : te.1 = 1 ∨ te.1 = 2 ∨ te.1 = 3 := by omega
        rcases hint with hl | hl | hl
        · rw [hl]
          exact Or.inl (show ("H" ++ toString (1 : ℤ)) = "H1" by decide)
        · rw [hl]
          exact Or.inr (Or.inl (show ("H" ++ toString (2 : ℤ)) = "H2" by decide))
        · rw [hl]
          exact Or.inr (Or.inr (show ("H" ++ toString (3 : ℤ)) = "H3" by decide))
      · rw [if_neg hc13] at hsome
        cases hsome
    · rw [if_neg htO] at hres
      rcases hA : analyzeDocumentStyle d with msg | stats
      · rw [hA] at hres
        simp only [Bind.bind, Except.bind] at hres
        cases hres
      · rw [hA] at hres
        simp only [Bind.bind, Except.bind] at hres
        by_cases hcs : scanDoc stats d = []
        · rw [if_pos hcs] at hres
          simp only [Except.ok.injEq, ExtractionResult.result.injEq] at hres
          rcases hres with ⟨-, houtl⟩
          rw [← houtl] at he
          simp at he
        · rw [if_neg hcs] at hres
          simp only [Except.ok.injEq, ExtractionResult.result.injEq] at hres
          rcases hres with ⟨-, houtl⟩
          rw [← houtl] at he
          have he2 := mem_suppressTitle _ _ _ he
          unfold dedupOutline at he2
          rcases mem_dedupGo _ _ _ _ he2 with ⟨ey, hey, heq⟩
          have hey2 : ey ∈ leveledEntries (scanDoc stats d) :=
            (mem_isortBy entryLE (leveledEntries (scanDoc stats d)) ey).mp
              (by simpa [sortEntries] using hey)
          rcases mem_leveledEntries _ _ hey2 with ⟨c, hcmem, lv, hlv, heyeq⟩
          have hpage : 1 ≤ e.page := by
            rw [heq, heyeq]
            exact scanPagesFrom_page stats d.pages 0 c (by simpa [scanDoc] using hcmem)
          refine ⟨?_, fun _ => hpage, fun hne => absurd hne htO, fun _ => hpage⟩
          rw [heq, heyeq]
          exact sigLookup_levelAssoc_vals _ _ _ hlv

/-- Witness for C10: a well-formed TOC document instantiates the
theorem; its single produced entry is H1, and its page 3 is the TOC
entry's page. -/
theorem outline_entries_wellformed_witness :
    extractOutline "w.pdf" (.doc ⟨"Valid Title", [(1, " B ", 3)], [⟨100, [], []⟩]⟩)
      = .ok (.result "Valid Title" [⟨"H1", "B", 3⟩])
    ∧ ∀ e ∈ [(⟨"H1", "B", 3⟩ : Entry)],
        (e.level = "H1" ∨ e.level = "H2" ∨ e.level = "H3")
        ∧ (tocOutline [((1 : ℤ), " B ", (3 : ℤ))] = [] → 1 ≤ e.page)
        ∧ (tocOutline [((1 : ℤ), " B ", (3 : ℤ))] ≠ [] →
            ∃ te ∈ ([(1, " B ", 3)] : List TocEntry),
              (1 ≤ te.1 ∧ te.1 ≤ 3) ∧ e.page = te.2.2)
        ∧ ((∀ te ∈ ([(1, " B ", 3)] : List TocEntry), 1 ≤ te.2.2) → 1 ≤ e.page) :=
  ⟨by decide,
   outline_entries_wellformed "w.pdf"
     ⟨"Valid Title", [(1, " B ", 3)], [⟨100, [], []⟩]⟩
     "Valid Title" [⟨"H1", "B", 3⟩] (by decide)⟩

end POE
